import Mathlib

/-!
# Verification of the PyMemoize cache/memoizer core

Shallow embedding of `src/memoize/core.py` (classes `Memoizer` and
`MemoizedFunction`) together with theorems checking the natural-language
specification against it.

Conventions used throughout:
* Python dicts are modelled as association lists (`List (α × β)`); the
  first binding for a key is the visible one, and plain Python dicts are
  kept duplicate-free by construction of the operations.
* Python `None`-able numbers (`expiry`, `max_age`, timestamps) are
  `Option ℚ`; unix times are rationals.
* Truthiness: Python treats `None`, `0`/`0.0` and the empty string as
  false.  Every place the source tests truthiness (rather than
  `is not None`) is modelled with the corresponding explicit check.
-/

/-- First value bound to key `a` in an association list (Python `d.get(a)`). -/
def alookup {α β : Type} [DecidableEq α] (a : α) : List (α × β) → Option β
  | [] => none
  | (k, v) :: rest => if k = a then some v else alookup a rest

/-- Python `d[k] = v`: replace the (unique) binding of `k`, or append it. -/
def storeSet {α β : Type} [DecidableEq α] : List (α × β) → α → β → List (α × β)
  | [], k, v => [(k, v)]
  | (k', v') :: rest, k, v =>
      if k' = k then (k, v) :: rest else (k', v') :: storeSet rest k v

/-- Python `del d[k]` (with the `KeyError` swallowed): drop the binding of `k`. -/
def storeDel {α β : Type} [DecidableEq α] (k : α) : List (α × β) → List (α × β)
  | [] => []
  | (k', v') :: rest => if k' = k then rest else (k', v') :: storeDel k rest

/-- Left-biased choice on `Option` (Python `a or b` on `None`-able values,
and the value produced by chained `setdefault` merging). -/
def ofirst {α : Type} : Option α → Option α → Option α
  | some a, _ => some a
  | none, b => b

/-- Python `d.pop(a)` on a dict modelled as an association list: the value of
the first binding of `a` together with the list with that binding removed. -/
def lookupPop {β : Type} (a : String) : List (String × β) → Option (β × List (String × β))
  | [] => none
  | (k, v) :: rest =>
      if k = a then some (v, rest)
      else
        match lookupPop a rest with
        | some (w, rest') => some (w, (k, v) :: rest')
        | none => none

/-! ## Key Builder (`MemoizedFunction.key`, core.py lines 241–272)

The wrapped function is described by its `getargspec` data: declared
positional parameter names and declared defaults (which align with the
*tail* of the parameter list).  Argument values are an arbitrary type `V`
rendered by `vrepr` (Python `repr`). -/

/-- The signature data `MemoizedFunction.key` reads via `getargspec`,
plus the module/name used to render the key. `spec_defaults = []` models
Python `None` (the source only tests `if spec_defaults:`, so an empty
tuple and `None` behave identically). -/
structure FuncSig (V : Type) where
  module : String
  fname : String
  spec_args : List String
  spec_defaults : List V

/-- The `for i, name in enumerate(spec_args): ...` loop of
`MemoizedFunction.key` (core.py lines 251–257): fill `args` by name from
`kwargs` (popping), else consume the next positional, else `break`.
Returns (filled slots, unconsumed positionals, unconsumed kwargs). -/
def fillLoop {V : Type} :
    List String → List V → List (String × V) → List V × List V × List (String × V)
  | [], orig, kw => ([], orig, kw)
  | n :: rest, orig, kw =>
      match lookupPop n kw with
      | some (v, kw') =>
          let r := fillLoop rest orig kw'
          (v :: r.1, r.2.1, r.2.2)
      | none =>
          match orig with
          | v :: orig' =>
              let r := fillLoop rest orig' kw
              (v :: r.1, r.2.1, r.2.2)
          | [] => ([], [], kw)

/-- Python slice `l[i:]` for an `int` index `i` (negative indices count
from the end, clamped at the start of the list). -/
def pySliceFrom {V : Type} (l : List V) (i : Int) : List V :=
  if 0 ≤ i then l.drop i.toNat else l.drop (l.length - (-i).toNat)

/-- The argument-normalisation part of `MemoizedFunction.key` (core.py
lines 245–264): slot filling, variadic tail, then
`args.extend(spec_defaults[len(args) - offset:])`.  Returns the final
positional value list and the leftover keyword arguments. -/
def keyArgs {V : Type} (sig : FuncSig V) (args : List V) (kwargs : List (String × V)) :
    List V × List (String × V) :=
  let r := fillLoop sig.spec_args args kwargs
  let args1 := r.1 ++ r.2.1
  let args2 :=
    if sig.spec_defaults.isEmpty then args1
    else
      args1 ++ pySliceFrom sig.spec_defaults
        ((args1.length : Int) - ((sig.spec_args.length : Int) - (sig.spec_defaults.length : Int)))
  (args2, r.2.2)

/-- Rendering of core.py lines 266–271: `repr` of each positional value,
`name=repr(value)` for each leftover keyword argument, comma-joined inside
`<module>.<name>(...)`. -/
def renderCall {V : Type} (vrepr : V → String) (sig : FuncSig V)
    (args : List V) (kwRest : List (String × V)) : String :=
  let chunks := args.map vrepr ++ kwRest.map (fun p => p.1 ++ "=" ++ vrepr p.2)
  sig.module ++ "." ++ sig.fname ++ "(" ++ String.intercalate ", " chunks ++ ")"

/-- `MemoizedFunction.key` (core.py lines 241–272).  `masterKey = none`
models a falsy `self.master_key` (`None`; the empty string is also falsy,
which we encode directly). -/
def keyFn {V : Type} (vrepr : V → String) (masterKey : Option String)
    (sig : FuncSig V) (args : List V) (kwargs : List (String × V)) : String :=
  let r := keyArgs sig args kwargs
  let base := renderCall vrepr sig r.1 r.2
  match masterKey with
  | some m => if m = "" then base else m ++ ":" ++ base
  | none => base

/-! ### Python call binding ("equivalent after default-filling")

The claim about the Key Builder quantifies over call argument
combinations that are *equivalent after default-filling against the
function's declared parameter list and defaults*.  `pyBind` is the
standard Python binding of a call to a plain positional parameter list:
positionals bind the leading parameters, keyword arguments bind by name
(an argument both positional and keyword is an error), remaining
parameters take their declared defaults, and the call is invalid if a
parameter is left without a value, a keyword is unknown, or there are too
many positionals.  Two calls are equivalent iff they bind to the same
value list. -/

/-- Pair each declared parameter with its declared default (defaults align
with the tail of the parameter list, as in Python). -/
def withDefaults {V : Type} (spec_args : List String) (spec_defaults : List V) :
    List (String × Option V) :=
  spec_args.zip (List.replicate (spec_args.length - spec_defaults.length) none
    ++ spec_defaults.map some)

/-- One parameter at a time: positionals first, then keywords by name,
then the declared default. -/
def bindGo {V : Type} :
    List (String × Option V) → List V → List (String × V) → Option (List V)
  | [], [], kw => if kw.isEmpty then some [] else none
  | [], _ :: _, _ => none
  | (n, d) :: ps, pos, kw =>
      match pos with
      | v :: pos' =>
          if (alookup n kw).isSome then none
          else (bindGo ps pos' kw).map (v :: ·)
      | [] =>
          match lookupPop n kw with
          | some (v, kw') => (bindGo ps [] kw').map (v :: ·)
          | none =>
              match d with
              | some v => (bindGo ps [] kw).map (v :: ·)
              | none => none

/-- Default-filling semantics of a Python call: the per-parameter value
list, or `none` for an invalid call. -/
def pyBind {V : Type} (sig : FuncSig V) (args : List V) (kwargs : List (String × V)) :
    Option (List V) :=
  if (kwargs.map Prod.fst).Nodup then
    bindGo (withDefaults sig.spec_args sig.spec_defaults) args kwargs
  else none

/-- Example signature `def f(a=1, b=2)` in module `m`, used as the concrete
instance for the Key Builder claims. -/
def exSig : FuncSig Int :=
  { module := "m", fname := "f", spec_args := ["a", "b"], spec_defaults := [1, 2] }

/-- Example signature `def g(a, b=2)` in module `m` (the signature used by
the specification's own example). -/
def exSig2 : FuncSig Int :=
  { module := "m", fname := "g", spec_args := ["a", "b"], spec_defaults := [2] }

/-- `repr` of a Python `int`. -/
def intRepr (v : Int) : String := toString v

/-! ## Region Resolver (`Memoizer._expand_opts`, core.py lines 24–47)

Region configurations and call options are Python dicts from string keys
to heterogeneous values; `OVal` covers the value kinds the resolver
inspects.  The `while region != 'default'` loop walks the parent chain,
`setdefault`-merging each visited region's bundle into the call options.
The source has no cycle guard, so the loop is embedded with explicit
fuel: `outOfFuel` for every fuel value is the model of the loop running
forever. -/

/-- Option values: `vnone` is Python `None`, `vstr` covers region names /
namespaces / etags, `vnum` covers times, and `vother` is an opaque
reference (store, lock constructor, function, ...). -/
inductive OVal where
  | vnone
  | vstr (s : String)
  | vnum (q : ℚ)
  | vother (n : Nat)
deriving DecidableEq

/-- A merged-or-call-site option dict. -/
abbrev Opts := List (String × OVal)

/-- A `Memoizer.regions` mapping: region name to option bundle. -/
abbrev Regions := List (String × Opts)

/-- Python `opts.setdefault(k, v)`. -/
def setdefault (d : Opts) (k : String) (v : OVal) : Opts :=
  match alookup k d with
  | some _ => d
  | none => d ++ [(k, v)]

/-- `for k, v in bundle.items(): opts.setdefault(k, v)` (core.py lines 39–40). -/
def mergeSD (opts : Opts) (bundle : Opts) : Opts :=
  bundle.foldl (fun acc p => setdefault acc p.1 p.2) opts

/-- Read an option that the resolver uses as a region name, with a
default.  A present non-string value cannot index the (string-keyed)
`regions` dict and is reported as a lookup failure (`none`). -/
def regionNameOf (v : Option OVal) (dflt : String) : Option String :=
  match v with
  | none => some dflt
  | some (OVal.vstr s) => some s
  | some _ => none

/-- Outcome of the region walk: the merged options together with the
visited bundles in merge order; a `KeyError` on an unknown region name;
or fuel exhaustion (for every fuel: the source loop never terminates). -/
inductive WalkRes where
  | ok (final : Opts) (chain : List Opts)
  | keyError
  | outOfFuel
deriving DecidableEq

/-- The `while region != 'default'` loop of `_expand_opts` (core.py lines
26–40), from the point where the current region name is known: look the
region up (Python raises `KeyError` here if it is unknown), merge its
bundle into the options, stop if it is `"default"`, else continue with
its declared `parent` (defaulting to `"default"`). -/
def expandLoop (regions : Regions) : Nat → String → Opts → WalkRes
  | 0, _, _ => .outOfFuel
  | fuel + 1, region, opts =>
      match alookup region regions with
      | none => .keyError
      | some ropts =>
          let opts' := mergeSD opts ropts
          if region = "default" then .ok opts' [ropts]
          else
            match regionNameOf (alookup "parent" ropts) "default" with
            | none => .keyError
            | some parent =>
                match expandLoop regions fuel parent opts' with
                | .ok final chain => .ok final (ropts :: chain)
                | e => e

/-- The option-merging part of `Memoizer._expand_opts`: start from the
call-site `region` option (default `"default"`) and run the walk. -/
def expandOpts (regions : Regions) (fuel : Nat) (opts : Opts) : WalkRes :=
  match regionNameOf (alookup "region" opts) "default" with
  | none => .keyError
  | some r => expandLoop regions fuel r opts

/-- Lookup of `k` through a chain of bundles, most specific first. -/
def chainLookup (k : String) (chain : List Opts) : Option OVal :=
  chain.foldr (fun r acc => ofirst (alookup k r) acc) none

/-- Cyclic region configuration used as the failing input for the
termination claim: `a`'s parent is `b` and `b`'s parent is `a`. -/
def cycRegions : Regions :=
  [("default", [("store", OVal.vother 0)]),
   ("a", [("parent", OVal.vstr "b")]),
   ("b", [("parent", OVal.vstr "a")])]

/-! ## Entry codec and Expiry Evaluator (`Memoizer._has_expired`, lines 49–73)

A stored entry is the 5-tuple
`(protocol, creation, expiry, etag, value)` (indices 0–4 in the source);
it is embedded as a structure with the same field order.  Value and etag
types stay abstract. -/

/-- `CURRENT_PROTOCOL_VERSION` (core.py line 7). -/
def CURRENT_PROTOCOL_VERSION : String := "1"

/-- `DEFAULT_TIMEOUT` (core.py line 6). -/
def DEFAULT_TIMEOUT : ℚ := 10

/-- A stored cache entry: `(protocol, creation, expiry, etag, value)`. -/
structure Entry (V E : Type) where
  protocol : String
  creation : ℚ
  expiry : Option ℚ
  etag : Option E
  value : V
deriving DecidableEq

/-- The options `Memoizer.get`/`_has_expired` read, after region-chain
merging ("effective options"), with each field at the type the source
uses it: `etagger` is the dynamic-etag callable, `lock` an (id of a)
lock constructor, `nspace` the `namespace` string prefix (renamed: the
Python name is a Lean keyword).  `none` models both an absent key and a
key explicitly set to `None` wherever the source only distinguishes
truthiness or `is not None`. -/
structure EffOpts (V E : Type) where
  etag : Option E := none
  etagger : Option (List V → List (String × V) → E) := none
  expiry : Option ℚ := none
  max_age : Option ℚ := none
  timeout : Option ℚ := none
  lock : Option Nat := none
  nspace : Option String := none

/-- `Memoizer._has_expired` (core.py lines 49–73).  `none` models the
`assert protocol == CURRENT_PROTOCOL_VERSION` failing; otherwise the four
independent checks, each with the source's exact strictness and
truthiness:
1. `old_expiry and old_expiry < current_time` (a `0` expiry is falsy);
2. an `etag` option that differs from the stored etag;
3. `expiry and expiry < current_time` on the *option*;
4. `max_age is not None and (creation + max_age) < current_time`. -/
def hasExpired {V E : Type} [DecidableEq E]
    (e : Entry V E) (o : EffOpts V E) (now : ℚ) : Option Bool :=
  if e.protocol = CURRENT_PROTOCOL_VERSION then
    some (
      (match e.expiry with
       | some x => decide (x ≠ 0) && decide (x < now)
       | none => false) ||
      (match o.etag with
       | some t => decide (e.etag ≠ some t)
       | none => false) ||
      (match o.expiry with
       | some x => decide (x ≠ 0) && decide (x < now)
       | none => false) ||
      (match o.max_age with
       | some m => decide (e.creation + m < now)
       | none => false))
  else none

/-! ## Memoizer facade (`Memoizer.get/delete/expire_at/ttl`, lines 75–171)

`get` and friends act on a resolved key (namespace-prefixed), a store,
and effective options.  Keys may be non-strings (`get` checks this,
core.py line 104); `KeyV.kint` stands for any hashable non-string key.
Time is passed explicitly: `tCheck` for the `time.time()` inside
`_has_expired` and `tWrite` for the `creation = time.time()` at line 126.
The lock's `acquire` outcome is the oracle input `acqOk`. -/

/-- A cache key as the facade sees it: a string, or a (hashable)
non-string stand-in. -/
inductive KeyV where
  | kstr (s : String)
  | kint (n : Int)
deriving DecidableEq

/-- Python `'%s' % key` as used by the namespace prefixing at core.py
line 44. -/
def pyStrOfKey : KeyV → String
  | .kstr s => s
  | .kint n => toString n

/-- The namespace prefixing of `_expand_opts` (core.py lines 42–44):
a truthy namespace turns the key into the string `namespace:key`
(`'%s:%s'` stringifies a non-string key); a `None` or empty namespace
leaves the key untouched. -/
def resolveKey (ns : Option String) (k : KeyV) : KeyV :=
  match ns with
  | some s => if s = "" then k else .kstr (s ++ ":" ++ pyStrOfKey k)
  | none => k

/-- The duck-typed store collaborator: its key-value data, an optional
native `lock` attribute (id of a lock constructor), and an optional
native `ttl` attribute (modelled as a lookup table). -/
structure StoreModel (V E : Type) where
  data : List (KeyV × Entry V E)
  lockCtor : Option Nat := none
  nativeTtl : Option (List (KeyV × ℚ)) := none

/-- Observable events of one `Memoizer.get` run, in program order. -/
inductive Event where
  | etagCall
  | storeGet
  | lockConstruct (ctor : Nat) (key : String)
  | acquire (timeout : ℚ) (ok : Bool)
  | callFunc
  | release
  | storeWrite
deriving DecidableEq

/-- Exceptions a facade operation can let escape: the `TypeError` of
core.py line 105, the protocol-version assertion of line 51, and an
exception raised by the user computation (propagated unchanged). -/
inductive GetErr (Err : Type) where
  | typeError
  | protocolError
  | funcRaised (e : Err)
deriving DecidableEq

/-- Result of a `Memoizer.get` run: the returned value (`ok none` is
Python returning `None` on a miss with no function) or escaping
exception, the store contents afterwards, and the event trace. -/
structure GetResult (V E Err : Type) where
  result : Except (GetErr Err) (Option V)
  store : List (KeyV × Entry V E)
  trace : List Event

/-- Core.py lines 100–102: `if opts.get('etag') is None and
opts.get('etagger'): opts['etag'] = opts['etagger'](*args, **kwargs)`.
Returns the resulting `etag` option and whether the etagger ran. -/
def effectiveEtag {V E : Type} (o : EffOpts V E)
    (args : List V) (kwargs : List (String × V)) : Option E × Bool :=
  match o.etag with
  | some t => (some t, false)
  | none =>
      match o.etagger with
      | some g => (some (g args kwargs), true)
      | none => (none, false)

/-- Core.py lines 115–134: lock construction/acquire around the
computation, release in `finally` only when `locked`, then the write of
`(CURRENT_PROTOCOL_VERSION, creation, expiry, opts.get('etag'), value)`
with `expiry = min(x for x in (expiry, creation + max_age) if x is not
None)` when `max_age is not None`.  `sd`/`slock` are the store's data and
native lock; `fres` is the outcome of `func(*args, **kwargs)`. -/
def recompute {V E Err : Type} (sd : List (KeyV × Entry V E)) (slock : Option Nat)
    (ks : String) (fres : Except Err V) (o : EffOpts V E) (tWrite : ℚ)
    (acqOk : Bool) (tr : List Event) : GetResult V E Err :=
  let ctor := ofirst o.lock slock
  let lockEvents :=
    match ctor with
    | none => []
    | some c => [Event.lockConstruct c ks,
                 Event.acquire (ofirst o.timeout (some DEFAULT_TIMEOUT) |>.getD 0) acqOk]
  let locked := ctor.isSome && acqOk
  match fres with
  | .error err =>
      ⟨.error (.funcRaised err), sd,
       tr ++ lockEvents ++ [Event.callFunc] ++ (if locked then [Event.release] else [])⟩
  | .ok v =>
      let expiryW :=
        match o.max_age with
        | none => o.expiry
        | some m =>
            some (match o.expiry with
                  | none => tWrite + m
                  | some x => min x (tWrite + m))
      ⟨.ok (some v),
       storeSet sd (.kstr ks)
         ⟨CURRENT_PROTOCOL_VERSION, tWrite, expiryW, o.etag, v⟩,
       tr ++ lockEvents ++ [Event.callFunc]
          ++ (if locked then [Event.release] else []) ++ [Event.storeWrite]⟩

/-- `Memoizer.get` from the `isinstance` check onwards (core.py lines
104–136), taking the options with the dynamic etag already applied. -/
def getAfterEtag {V E Err : Type} [DecidableEq E] (store : StoreModel V E)
    (rawKey : KeyV) (func : Option (Except Err V)) (o : EffOpts V E)
    (tCheck tWrite : ℚ) (acqOk : Bool) : GetResult V E Err :=
  match resolveKey o.nspace rawKey with
  | .kint _ => ⟨.error .typeError, store.data, []⟩
  | .kstr ks =>
      match alookup (KeyV.kstr ks) store.data with
      | some e =>
          match hasExpired e o tCheck with
          | none => ⟨.error .protocolError, store.data, [Event.storeGet]⟩
          | some false => ⟨.ok (some e.value), store.data, [Event.storeGet]⟩
          | some true =>
              match func with
              | none => ⟨.ok none, store.data, [Event.storeGet]⟩
              | some fres =>
                  recompute store.data store.lockCtor ks fres o tWrite acqOk [Event.storeGet]
      | none =>
          match func with
          | none => ⟨.ok none, store.data, [Event.storeGet]⟩
          | some fres =>
              recompute store.data store.lockCtor ks fres o tWrite acqOk [Event.storeGet]

/-- `Memoizer.get` (core.py lines 75–136) on a resolved configuration:
the dynamic-etag step (lines 100–102, before the key type check and the
store lookup), then `getAfterEtag`.  `func = none` is a call without a
generating function; `func = some fres` provides the outcome of the one
possible call `func(*args, **kwargs)` (its args/kwargs are fixed by the
caller, so only the outcome matters past `effectiveEtag`). -/
def getM {V E Err : Type} [DecidableEq E] (store : StoreModel V E)
    (rawKey : KeyV) (func : Option (Except Err V))
    (args : List V) (kwargs : List (String × V)) (o : EffOpts V E)
    (tCheck tWrite : ℚ) (acqOk : Bool) : GetResult V E Err :=
  let p := effectiveEtag o args kwargs
  let r := getAfterEtag store rawKey func { o with etag := p.1 } tCheck tWrite acqOk
  ⟨r.result, r.store, (if p.2 then [Event.etagCall] else []) ++ r.trace⟩

/-- `Memoizer.delete` (core.py lines 138–144): resolve the key, `del
store[key]` with the `KeyError` swallowed.  The body contains no type
check and no other `raise`, so the operation always succeeds; the
`Except` wrapper shares `get`'s error channel to make that observable. -/
def deleteM {V E Err : Type} (store : StoreModel V E) (rawKey : KeyV)
    (ns : Option String) : Except (GetErr Err) (List (KeyV × Entry V E)) :=
  .ok (storeDel (resolveKey ns rawKey) store.data)

/-- `Memoizer.expire_at` (core.py lines 146–155): on an existing entry,
rebuild it with `data[EXPIRY_INDEX] = expiry`; on a missing key, `raise
KeyError(key)`. -/
def expireAtM {V E : Type} (store : StoreModel V E) (rawKey : KeyV) (t : ℚ)
    (ns : Option String) : Except KeyV (List (KeyV × Entry V E)) :=
  let key := resolveKey ns rawKey
  match alookup key store.data with
  | some e => .ok (storeSet store.data key { e with expiry := some t })
  | none => .error key

/-- `Memoizer.ttl` (core.py lines 161–171): prefer a native store `ttl`;
otherwise `None` for a missing entry or an entry with no stored expiry,
else `max(0, expiry - time.time()) or None` (a zero remainder is falsy
and collapses to `None`). -/
def ttlM {V E : Type} (store : StoreModel V E) (rawKey : KeyV)
    (ns : Option String) (now : ℚ) : Option ℚ :=
  let key := resolveKey ns rawKey
  match store.nativeTtl with
  | some tbl => alookup key tbl
  | none =>
      match alookup key store.data with
      | none => none
      | some e =>
          match e.expiry with
          | none => none
          | some x => if max 0 (x - now) = 0 then none else some (max 0 (x - now))

/-- The specification's write-time expiry rule (§4.5): the minimum of the
explicit `expiry` option and `creationTime + max_age`, an unset side
being absent from the minimum. -/
def specExpiryMin (expiry : Option ℚ) (max_age : Option ℚ) (creation : ℚ) : Option ℚ :=
  match expiry, max_age with
  | none, none => none
  | some x, none => some x
  | none, some m => some (creation + m)
  | some x, some m => some (min x (creation + m))

/-! ### Concrete fixtures used by the claim witnesses -/

/-- Example region configuration: `b` inherits from `a`, `a` from
`default`. -/
def exRegions : Regions :=
  [("default", [("store", OVal.vother 0), ("x", OVal.vnum 1)]),
   ("a", [("x", OVal.vnum 2), ("y", OVal.vnum 3)]),
   ("b", [("parent", OVal.vstr "a"), ("y", OVal.vnum 4)])]

/-- Example call-site options selecting region `b`. -/
def exCallOpts : Opts := [("region", OVal.vstr "b"), ("z", OVal.vnum 9)]

/-- Example store contents: one entry under the string key `"k"`. -/
def exStoreData : List (KeyV × Entry Int Int) :=
  [(KeyV.kstr "k", ⟨"1", 0, none, none, 42⟩)]

/-- Example store built over `exStoreData`. -/
def exStore : StoreModel Int Int := { data := exStoreData }

/-- Example store whose single entry has a stored expiry of 5. -/
def exStoreTtl : StoreModel Int Int :=
  { data := [(KeyV.kstr "t", ⟨"1", 0, some 5, none, 1⟩)] }

/-! ## Supporting lemmas -/

@[simp]
theorem ofirst_none_left {α : Type} (b : Option α) : ofirst none b = b := rfl

@[simp]
theorem ofirst_some {α : Type} (a : α) (b : Option α) : ofirst (some a) b = some a := rfl

@[simp]
theorem ofirst_none_right {α : Type} (a : Option α) : ofirst a none = a := by
  cases a <;> rfl

theorem ofirst_assoc {α : Type} (a b c : Option α) :
    ofirst (ofirst a b) c = ofirst a (ofirst b c) := by
  cases a <;> rfl

theorem alookup_append {α β : Type} [DecidableEq α] (a : α) (l₁ l₂ : List (α × β)) :
    alookup a (l₁ ++ l₂) = ofirst (alookup a l₁) (alookup a l₂) := by
  induction l₁ with
  | nil => simp [alookup]
  | cons p rest ih =>
      obtain ⟨k, v⟩ := p
      by_cases hk : k = a <;> simp [alookup, hk, ih]

theorem alookup_storeSet_self {α β : Type} [DecidableEq α] (d : List (α × β)) (k : α) (v : β) :
    alookup k (storeSet d k v) = some v := by
  induction d with
  | nil => simp [storeSet, alookup]
  | cons p rest ih =>
      obtain ⟨k', v'⟩ := p
      by_cases hk : k' = k <;> simp [storeSet, alookup, hk, ih]

theorem alookup_storeSet_other {α β : Type} [DecidableEq α] (d : List (α × β)) (k k' : α)
    (v : β) (h : k' ≠ k) : alookup k' (storeSet d k v) = alookup k' d := by
  have h' : ¬ k = k' := fun hkk => h hkk.symm
  induction d with
  | nil => simp [storeSet, alookup, h']
  | cons p rest ih =>
      obtain ⟨k₀, v₀⟩ := p
      by_cases hk : k₀ = k
      · subst hk
        simp [storeSet, alookup, h', ih]
      · simp [storeSet, alookup, hk, ih]

theorem alookup_setdefault (d : Opts) (k : String) (v : OVal) (a : String) :
    alookup a (setdefault d k v) =
      ofirst (alookup a d) (if k = a then some v else none) := by
  unfold setdefault
  cases hd : alookup k d with
  | some w =>
      cases ha : alookup a d with
      | some u => simp
      | none =>
          by_cases hk : k = a
          · subst hk; rw [hd] at ha; cases ha
          · simp [hk]
  | none => rw [alookup_append]; simp [alookup]

theorem alookup_mergeSD (o : Opts) (r : Opts) (a : String) :
    alookup a (mergeSD o r) = ofirst (alookup a o) (alookup a r) := by
  induction r generalizing o with
  | nil => simp [mergeSD, alookup]
  | cons p rest ih =>
      obtain ⟨k, v⟩ := p
      show alookup a (mergeSD (setdefault o k v) rest) = _
      rw [ih, alookup_setdefault, ofirst_assoc]
      by_cases hk : k = a <;> simp [alookup, hk]

theorem chainLookup_nil (k : String) : chainLookup k [] = none := rfl

theorem chainLookup_cons (k : String) (r : Opts) (rest : List Opts) :
    chainLookup k (r :: rest) = ofirst (alookup k r) (chainLookup k rest) := rfl

/-- A successful region walk distributes lookups first-set-wins over the
call options and the visited chain, and the walk ends at `"default"`. -/
theorem expandLoop_ok (regions : Regions) :
    ∀ (fuel : Nat) (region : String) (opts final : Opts) (chain : List Opts),
      expandLoop regions fuel region opts = .ok final chain →
      (∀ k, alookup k final = ofirst (alookup k opts) (chainLookup k chain)) ∧
      chain ≠ [] ∧ chain.getLast? = alookup "default" regions := by
  intro fuel
  induction fuel with
  | zero => intro region opts final chain h; cases h
  | succ f ih =>
      intro region opts final chain h
      unfold expandLoop at h
      cases hr : alookup region regions with
      | none => simp only [hr] at h; cases h
      | some ropts =>
          simp only [hr] at h
          by_cases hd : region = "default"
          · rw [if_pos hd] at h
            cases h
            subst hd
            refine ⟨fun k => ?_, by simp, by simp [hr]⟩
            rw [alookup_mergeSD, chainLookup_cons, chainLookup_nil, ofirst_none_right]
          · rw [if_neg hd] at h
            cases hp : regionNameOf (alookup "parent" ropts) "default" with
            | none => simp only [hp] at h; cases h
            | some parent =>
                simp only [hp] at h
                cases hrec : expandLoop regions f parent (mergeSD opts ropts) with
                | ok F C =>
                    simp only [hrec] at h
                    injection h with h1 h2
                    subst h1
                    subst h2
                    obtain ⟨hlk, hne, hlast⟩ := ih parent (mergeSD opts ropts) F C hrec
                    refine ⟨fun k => ?_, by simp, ?_⟩
                    · rw [hlk k, alookup_mergeSD, ofirst_assoc, chainLookup_cons]
                    · rw [List.getLast?_cons, ← hlast]
                      cases C with
                      | nil => exact absurd rfl hne
                      | cons c cs => simp [List.getLast?_cons]
                | keyError => simp only [hrec] at h; cases h
                | outOfFuel => simp only [hrec] at h; cases h

/-- One iteration of the walk from region `"a"` of the cyclic
configuration: merge `a`'s bundle and continue at `"b"`. -/
theorem cyc_step_a (f : Nat) (opts : Opts) :
    expandLoop cycRegions (f + 1) "a" opts =
      (match expandLoop cycRegions f "b" (mergeSD opts [("parent", OVal.vstr "b")]) with
       | .ok final chain => .ok final ([("parent", OVal.vstr "b")] :: chain)
       | e => e) := rfl

/-- One iteration of the walk from region `"b"` of the cyclic
configuration: merge `b`'s bundle and continue at `"a"`. -/
theorem cyc_step_b (f : Nat) (opts : Opts) :
    expandLoop cycRegions (f + 1) "b" opts =
      (match expandLoop cycRegions f "a" (mergeSD opts [("parent", OVal.vstr "a")]) with
       | .ok final chain => .ok final ([("parent", OVal.vstr "a")] :: chain)
       | e => e) := rfl

/-- On the cyclic configuration `a ↔ b`, the region walk exhausts any
amount of fuel: the source loop never terminates. -/
theorem cyc_walk_diverges :
    ∀ (fuel : Nat),
      (∀ opts, expandLoop cycRegions fuel "a" opts = .outOfFuel) ∧
      (∀ opts, expandLoop cycRegions fuel "b" opts = .outOfFuel) := by
  intro fuel
  induction fuel with
  | zero => exact ⟨fun _ => rfl, fun _ => rfl⟩
  | succ f ih =>
      refine ⟨fun opts => ?_, fun opts => ?_⟩
      · rw [cyc_step_a, ih.2]
      · rw [cyc_step_b, ih.1]

theorem alookup_eq_none_iff {β : Type} (a : String) (kw : List (String × β)) :
    alookup a kw = none ↔ a ∉ kw.map Prod.fst := by
  induction kw with
  | nil => simp [alookup]
  | cons p rest ih =>
      obtain ⟨k, v⟩ := p
      by_cases hk : k = a
      · subst hk; simp [alookup]
      · have hka : ¬ a = k := fun hx => hk hx.symm
        simp [alookup, hk, ih, hka]

theorem lookupPop_eq_none_iff {β : Type} (a : String) (kw : List (String × β)) :
    lookupPop a kw = none ↔ alookup a kw = none := by
  induction kw with
  | nil => simp [lookupPop, alookup]
  | cons p rest ih =>
      obtain ⟨k, v⟩ := p
      by_cases hk : k = a
      · subst hk; simp [lookupPop, alookup]
      · simp only [lookupPop, alookup, if_neg hk]
        cases hp : lookupPop a rest with
        | none => simpa [hp] using ih
        | some q => simp only [hp, ← ih, hp]; simp

theorem lookupPop_some_spec {β : Type} (a : String) (kw : List (String × β))
    (v : β) (kw' : List (String × β)) (h : lookupPop a kw = some (v, kw')) :
    alookup a kw = some v ∧ kw'.map Prod.fst = (kw.map Prod.fst).erase a ∧
      kw.length = kw'.length + 1 ∧
      (∀ b, b ≠ a → alookup b kw' = alookup b kw) := by
  induction kw generalizing v kw' with
  | nil => cases h
  | cons p rest ih =>
      obtain ⟨k, w⟩ := p
      by_cases hk : k = a
      · subst hk
        simp only [lookupPop, if_pos rfl] at h
        injection h with h1
        injection h1 with hv hkw
        subst hv; subst hkw
        refine ⟨by simp [alookup], by simp, by simp, fun b hb => ?_⟩
        have hkb : ¬ k = b := fun hx => hb hx.symm
        simp [alookup, hkb]
      · simp only [lookupPop, if_neg hk] at h
        cases hp : lookupPop a rest with
        | none => rw [hp] at h; cases h
        | some q =>
            obtain ⟨w', rest'⟩ := q
            rw [hp] at h
            injection h with h1
            injection h1 with hv hkw
            subst hv; subst hkw
            obtain ⟨ha, herase, hlen, hpres⟩ := ih w' rest' hp
            have hba : ¬ (k == a) := by simpa using hk
            refine ⟨by simp [alookup, hk, ha], ?_, by simp [hlen], fun b hb => ?_⟩
            · simp [herase, List.erase_cons_tail, hba]
            · by_cases hbk : k = b
              · subst hbk; simp [alookup]
              · simp [alookup, hbk, hpres b hb]

theorem bindGo_length {V : Type} :
    ∀ (ps : List (String × Option V)) (pos : List V) (kw : List (String × V)) (l : List V),
      bindGo ps pos kw = some l → l.length = ps.length := by
  intro ps
  induction ps with
  | nil =>
      intro pos kw l h
      cases pos with
      | nil =>
          simp only [bindGo] at h
          by_cases hkw : kw.isEmpty
          · rw [if_pos hkw] at h; injection h with h1; subst h1; rfl
          · rw [if_neg hkw] at h; cases h
      | cons v pos => cases h
  | cons p ps ih =>
      obtain ⟨n, d⟩ := p
      intro pos kw l h
      cases pos with
      | cons v pos =>
          simp only [bindGo] at h
          by_cases hs : (alookup n kw).isSome
          · rw [if_pos hs] at h; cases h
          · rw [if_neg hs, Option.map_eq_some'] at h
            obtain ⟨l2, hb, hl⟩ := h
            subst hl
            simp [ih pos kw l2 hb]
      | nil =>
          simp only [bindGo] at h
          cases hp : lookupPop n kw with
          | some q =>
              obtain ⟨v, kw2⟩ := q
              simp only [hp, Option.map_eq_some'] at h
              obtain ⟨l2, hb, hl⟩ := h
              subst hl
              simp [ih [] kw2 l2 hb]
          | none =>
              simp only [hp] at h
              cases d with
              | some v =>
                  simp only [Option.map_eq_some'] at h
                  obtain ⟨l2, hb, hl⟩ := h
                  subst hl
                  simp [ih [] kw l2 hb]
              | none => cases h

/-- Central canonical-form lemma for the Key Builder: on a *valid* call
(`bindGo … = some l`) whose keyword arguments only name parameters inside
the supplied prefix (the first `pos.length + kw.length` declared
parameters), the slot-filling loop consumes every positional and keyword
argument and produces exactly the first `pos.length + kw.length` bound
values, while every remaining parameter carries its declared default. -/
theorem bindGo_fillLoop {V : Type} :
    ∀ (params : List (String × Option V)) (pos : List V) (kw : List (String × V)) (l : List V),
      (kw.map Prod.fst).Nodup →
      (∀ m ∈ kw.map Prod.fst, m ∈ (params.map Prod.fst).take (pos.length + kw.length)) →
      bindGo params pos kw = some l →
      fillLoop (params.map Prod.fst) pos kw = (l.take (pos.length + kw.length), [], []) ∧
      (params.drop (pos.length + kw.length)).map Prod.snd =
        (l.drop (pos.length + kw.length)).map some := by
  intro params
  induction params with
  | nil =>
      intro pos kw l hnd hsub h
      cases pos with
      | nil =>
          cases kw with
          | nil =>
              simp only [bindGo, List.isEmpty_nil, if_pos] at h
              injection h with h1
              subst h1
              exact ⟨rfl, rfl⟩
          | cons q kw' => simp [bindGo] at h
      | cons v pos => cases h
  | cons p ps ih =>
      obtain ⟨n, d⟩ := p
      intro pos kw l hnd hsub h
      cases pos with
      | cons v pos' =>
          simp only [bindGo] at h
          by_cases hs : (alookup n kw).isSome
          · rw [if_pos hs] at h; cases h
          · rw [if_neg hs, Option.map_eq_some'] at h
            obtain ⟨l2, hb, hl⟩ := h
            subst hl
            have hnone : alookup n kw = none := Option.not_isSome_iff_eq_none.mp hs
            have hnmem : n ∉ kw.map Prod.fst := (alookup_eq_none_iff n kw).mp hnone
            have hsub' : ∀ m ∈ kw.map Prod.fst,
                m ∈ (ps.map Prod.fst).take (pos'.length + kw.length) := by
              intro m hm
              have hx := hsub m hm
              simp only [List.map_cons, List.length_cons] at hx
              rw [Nat.add_right_comm pos'.length 1 kw.length, List.take_succ_cons] at hx
              rcases List.mem_cons.mp hx with h1 | h1
              · subst h1; exact absurd hm hnmem
              · exact h1
            obtain ⟨hfl, hdrop⟩ := ih pos' kw l2 hnd hsub' hb
            have hlp : lookupPop n kw = none := (lookupPop_eq_none_iff n kw).mpr hnone
            constructor
            · simp only [List.map_cons, fillLoop, hlp, hfl, List.length_cons]
              rw [Nat.add_right_comm pos'.length 1 kw.length, List.take_succ_cons]
            · simp only [List.length_cons]
              rw [Nat.add_right_comm pos'.length 1 kw.length, List.drop_succ_cons,
                List.drop_succ_cons]
              exact hdrop
      | nil =>
          simp only [bindGo] at h
          cases hp : lookupPop n kw with
          | some q =>
              obtain ⟨w, kw2⟩ := q
              simp only [hp, Option.map_eq_some'] at h
              obtain ⟨l2, hb, hl⟩ := h
              subst hl
              obtain ⟨halk, herase, hlen, hpres⟩ := lookupPop_some_spec n kw w kw2 hp
              have hnd2 : (kw2.map Prod.fst).Nodup := by
                rw [herase]; exact hnd.erase n
              have hsub2 : ∀ m ∈ kw2.map Prod.fst,
                  m ∈ (ps.map Prod.fst).take (List.length ([] : List V) + kw2.length) := by
                intro m hm
                rw [herase] at hm
                have hmn : m ≠ n ∧ m ∈ kw.map Prod.fst :=
                  (List.Nodup.mem_erase_iff hnd).mp hm
                have hx := hsub m hmn.2
                simp only [List.map_cons, List.length_nil, Nat.zero_add] at hx
                rw [hlen, List.take_succ_cons] at hx
                rcases List.mem_cons.mp hx with h1 | h1
                · exact absurd h1 hmn.1
                · simpa using h1
              obtain ⟨hfl, hdrop⟩ := ih [] kw2 l2 hnd2 hsub2 hb
              simp only [List.length_nil, Nat.zero_add] at hfl hdrop ⊢
              constructor
              · simp only [List.map_cons, fillLoop, hp, hfl]
                rw [hlen, List.take_succ_cons]
              · rw [hlen, List.drop_succ_cons, List.drop_succ_cons]
                exact hdrop
          | none =>
              simp only [hp] at h
              have hanone : alookup n kw = none := (lookupPop_eq_none_iff n kw).mp hp
              have hnmem : n ∉ kw.map Prod.fst := (alookup_eq_none_iff n kw).mp hanone
              have hkwnil : kw = [] := by
                by_contra hne
                have hk1 : 1 ≤ kw.length := by
                  cases kw with
                  | nil => exact absurd rfl hne
                  | cons q kw' => simp
                have hsubs : (kw.map Prod.fst) ⊆ (ps.map Prod.fst).take (kw.length - 1) := by
                  intro m hm
                  have hx := hsub m hm
                  simp only [List.map_cons, List.length_nil, Nat.zero_add] at hx
                  rw [show kw.length = (kw.length - 1) + 1 by omega,
                    List.take_succ_cons] at hx
                  rcases List.mem_cons.mp hx with h1 | h1
                  · subst h1; exact absurd hm hnmem
                  · exact h1
                have hle := (hnd.subperm hsubs).length_le
                have htk := List.length_take (kw.length - 1) (ps.map Prod.fst)
                have hmap : (kw.map Prod.fst).length = kw.length := List.length_map kw Prod.fst
                rw [hmap, htk] at hle
                omega
              subst hkwnil
              cases d with
              | some w =>
                  simp only [Option.map_eq_some'] at h
                  obtain ⟨l2, hb, hl⟩ := h
                  subst hl
                  obtain ⟨hfl, hdrop⟩ := ih [] [] l2 (by simp) (by simp) hb
                  simp only [List.length_nil, Nat.zero_add, List.take_zero,
                    List.drop_zero] at hfl hdrop ⊢
                  constructor
                  · simp [List.map_cons, fillLoop, lookupPop]
                  · simp only [List.map_cons, List.map_cons]
                    rw [hdrop]
              | none => cases h

/-- On a valid call whose supplied arguments fill a prefix of the
declared parameter list, `MemoizedFunction.key`'s argument normalisation
returns exactly the default-filled bound value list, with no leftover
keyword arguments. -/
theorem keyArgs_canonical {V : Type} (sig : FuncSig V) (args : List V)
    (kwargs : List (String × V)) (l : List V)
    (hdl : sig.spec_defaults.length ≤ sig.spec_args.length)
    (hb : pyBind sig args kwargs = some l)
    (hpre : ∀ m ∈ kwargs.map Prod.fst,
      m ∈ sig.spec_args.take (args.length + kwargs.length)) :
    keyArgs sig args kwargs = (l, []) := by
  unfold pyBind at hb
  by_cases hnd : (kwargs.map Prod.fst).Nodup
  swap
  · rw [if_neg hnd] at hb; cases hb
  rw [if_pos hnd] at hb
  set n := sig.spec_args.length with hn
  set dl := sig.spec_defaults.length with hdlen
  set offset := n - dl with hoffdef
  set pk := args.length + kwargs.length with hpk
  have hdefs_len : (List.replicate offset (none : Option V)
      ++ sig.spec_defaults.map some).length = n := by
    simp [List.length_replicate]
    omega
  have hfst : (withDefaults sig.spec_args sig.spec_defaults).map Prod.fst =
      sig.spec_args := by
    apply List.map_fst_zip
    rw [hdefs_len]
  have hsnd : (withDefaults sig.spec_args sig.spec_defaults).map Prod.snd =
      List.replicate offset none ++ sig.spec_defaults.map some := by
    apply List.map_snd_zip
    rw [hdefs_len]
  have hplen : (withDefaults sig.spec_args sig.spec_defaults).length = n := by
    unfold withDefaults
    rw [List.length_zip, hdefs_len]
    simp
  have hllen : l.length = n := by
    rw [bindGo_length (withDefaults sig.spec_args sig.spec_defaults) args kwargs l hb, hplen]
  have hpre' : ∀ m ∈ kwargs.map Prod.fst,
      m ∈ ((withDefaults sig.spec_args sig.spec_defaults).map Prod.fst).take pk := by
    rw [hfst]; exact hpre
  obtain ⟨hfl, hdrop⟩ :=
    bindGo_fillLoop (withDefaults sig.spec_args sig.spec_defaults) args kwargs l hnd hpre' hb
  rw [show (withDefaults sig.spec_args sig.spec_defaults).map Prod.fst =
    sig.spec_args from hfst] at hfl
  have hdrop2 : (List.replicate offset (none : Option V)
      ++ sig.spec_defaults.map some).drop pk = (l.drop pk).map some := by
    rw [← hsnd, ← List.map_drop]
    exact hdrop
  rw [List.drop_append_eq_append_drop] at hdrop2
  rw [List.length_replicate] at hdrop2
  have hoff : offset ≤ pk := by
    by_contra hlt
    push_neg at hlt
    have hmem : (none : Option V) ∈ List.replicate (offset - pk) (none : Option V)
        ++ (sig.spec_defaults.map some).drop (pk - offset) := by
      apply List.mem_append_left
      rw [List.mem_replicate]
      exact ⟨by omega, rfl⟩
    rw [List.drop_replicate] at hdrop2
    rw [hdrop2] at hmem
    obtain ⟨y, _, hy⟩ := List.mem_map.mp hmem
    cases hy
  rw [List.drop_replicate, show offset - pk = 0 by omega] at hdrop2
  simp only [List.replicate, List.nil_append] at hdrop2
  rw [← List.map_drop] at hdrop2
  have hd2 : sig.spec_defaults.drop (pk - offset) = l.drop pk :=
    List.map_injective_iff.mpr (Option.some_injective V) hdrop2
  unfold keyArgs
  rw [hfl]
  simp only [List.append_nil]
  by_cases hde : sig.spec_defaults.isEmpty
  · rw [if_pos hde]
    have hd0 : dl = 0 := by
      rw [hdlen]
      cases hd : sig.spec_defaults with
      | nil => simp
      | cons x xs => rw [hd] at hde; cases hde
    have : l.take pk = l := List.take_of_length_le (by omega)
    rw [this]
  · rw [if_neg hde]
    have hlt : (l.take pk).length = min pk n := by
      rw [List.length_take, hllen]
    rcases Nat.lt_or_ge pk n with hc | hc
    · have hmin : min pk n = pk := by omega
      have hidx : ((l.take pk).length : Int) - ((n : Int) - (dl : Int)) =
          ((pk - offset : Nat) : Int) := by
        rw [hlt, hmin]
        omega
      rw [hidx]
      unfold pySliceFrom
      rw [if_pos (by omega)]
      rw [Int.toNat_ofNat, hd2, List.take_append_drop]
    · have hmin : min pk n = n := by omega
      have htk : l.take pk = l := List.take_of_length_le (by omega)
      have hidx : ((l.take pk).length : Int) - ((n : Int) - (dl : Int)) =
          ((dl : Nat) : Int) := by
        rw [hlt, hmin]
        omega
      rw [hidx]
      unfold pySliceFrom
      rw [if_pos (by omega)]
      rw [Int.toNat_ofNat]
      have : sig.spec_defaults.drop dl = [] := List.drop_eq_nil_of_le (by omega)
      rw [this, htk, List.append_nil]

@[simp]
theorem etagUpdate_nspace {V E : Type} (o : EffOpts V E) (t : Option E) :
    ({ o with etag := t } : EffOpts V E).nspace = o.nspace := rfl

@[simp]
theorem etagUpdate_lock {V E : Type} (o : EffOpts V E) (t : Option E) :
    ({ o with etag := t } : EffOpts V E).lock = o.lock := rfl

@[simp]
theorem etagUpdate_timeout {V E : Type} (o : EffOpts V E) (t : Option E) :
    ({ o with etag := t } : EffOpts V E).timeout = o.timeout := rfl

@[simp]
theorem etagUpdate_expiry {V E : Type} (o : EffOpts V E) (t : Option E) :
    ({ o with etag := t } : EffOpts V E).expiry = o.expiry := rfl

@[simp]
theorem etagUpdate_max_age {V E : Type} (o : EffOpts V E) (t : Option E) :
    ({ o with etag := t } : EffOpts V E).max_age = o.max_age := rfl

@[simp]
theorem etagUpdate_etag {V E : Type} (o : EffOpts V E) (t : Option E) :
    ({ o with etag := t } : EffOpts V E).etag = t := rfl

/-- `recompute` on a computation that raises: the error propagates
unchanged, the store is untouched, and `release` fires exactly when a
lock constructor existed and acquisition succeeded. -/
theorem recompute_error_eq {V E Err : Type} (sd : List (KeyV × Entry V E))
    (slock : Option Nat) (ks : String) (err : Err) (o : EffOpts V E) (tW : ℚ)
    (acqOk : Bool) (tr : List Event) :
    recompute sd slock ks (Except.error err) o tW acqOk tr =
      ⟨Except.error (GetErr.funcRaised err), sd,
       tr ++ (match ofirst o.lock slock with
              | none => []
              | some c => [Event.lockConstruct c ks,
                           Event.acquire ((ofirst o.timeout (some DEFAULT_TIMEOUT)).getD 0) acqOk])
          ++ [Event.callFunc]
          ++ (if (ofirst o.lock slock).isSome && acqOk then [Event.release] else [])⟩ := rfl

/-- `recompute` on a successful computation: the value is returned and
written with the combined expiry and the effective etag. -/
theorem recompute_ok_eq {V E Err : Type} (sd : List (KeyV × Entry V E))
    (slock : Option Nat) (ks : String) (v : V) (o : EffOpts V E) (tW : ℚ)
    (acqOk : Bool) (tr : List Event) :
    recompute sd slock ks (Except.ok v : Except Err V) o tW acqOk tr =
      ⟨Except.ok (some v),
       storeSet sd (KeyV.kstr ks)
         ⟨CURRENT_PROTOCOL_VERSION, tW, specExpiryMin o.expiry o.max_age tW, o.etag, v⟩,
       tr ++ (match ofirst o.lock slock with
              | none => []
              | some c => [Event.lockConstruct c ks,
                           Event.acquire ((ofirst o.timeout (some DEFAULT_TIMEOUT)).getD 0) acqOk])
          ++ [Event.callFunc]
          ++ (if (ofirst o.lock slock).isSome && acqOk then [Event.release] else [])
          ++ [Event.storeWrite]⟩ := by
  unfold recompute specExpiryMin
  cases o.max_age <;> cases ho : o.expiry <;> simp [ho]

/-- On a miss (or an expired hit) with a generating function, `get` runs
the recomputation path. -/
theorem getAfterEtag_recompute {V E Err : Type} [DecidableEq E] (store : StoreModel V E)
    (rawKey : KeyV) (fres : Except Err V) (o : EffOpts V E) (tC tW : ℚ) (acqOk : Bool)
    (ks : String) (hk : resolveKey o.nspace rawKey = .kstr ks)
    (hmiss : alookup (KeyV.kstr ks) store.data = none ∨
      ∃ e, alookup (KeyV.kstr ks) store.data = some e ∧ hasExpired e o tC = some true) :
    getAfterEtag store rawKey (some fres) o tC tW acqOk =
      recompute store.data store.lockCtor ks fres o tW acqOk [Event.storeGet] := by
  unfold getAfterEtag
  simp only [hk]
  rcases hmiss with hnone | ⟨e, he, hex⟩
  · simp only [hnone]
  · simp only [he, hex]

/-! ## Claim theorems -/

/-- C1 (counterexample): two call argument combinations for `def f(a=1,
b=2)` that are equivalent after default-filling — `f(b=5)` and `f(a=1,
b=5)`, both binding to `(a, b) = (1, 5)` — receive *different* key
strings from `MemoizedFunction.key` (`m.f(1, 2, b=5)` versus
`m.f(1, 5)`), so the claim as stated is false. -/
theorem C1_counterexample :
    pyBind exSig [] [("b", 5)] = some [1, 5] ∧
    pyBind exSig [] [("a", 1), ("b", 5)] = some [1, 5] ∧
    keyFn intRepr none exSig [] [("b", 5)] ≠
      keyFn intRepr none exSig [] [("a", 1), ("b", 5)] :=
  ⟨by decide, by decide, by decide⟩

/-- C1 (amended): for valid calls that are equivalent after
default-filling, `MemoizedFunction.key` produces identical key strings,
provided each call's keyword arguments only name parameters among the
first `positionals + keywords` declared parameters (the supplied
arguments fill a gap-free prefix of the parameter list). -/
theorem C1_keys_agree {V : Type} (vrepr : V → String) (masterKey : Option String)
    (sig : FuncSig V) (args1 : List V) (kw1 : List (String × V))
    (args2 : List V) (kw2 : List (String × V)) (l : List V)
    (hdl : sig.spec_defaults.length ≤ sig.spec_args.length)
    (hb1 : pyBind sig args1 kw1 = some l)
    (hb2 : pyBind sig args2 kw2 = some l)
    (hp1 : ∀ m ∈ kw1.map Prod.fst, m ∈ sig.spec_args.take (args1.length + kw1.length))
    (hp2 : ∀ m ∈ kw2.map Prod.fst, m ∈ sig.spec_args.take (args2.length + kw2.length)) :
    keyFn vrepr masterKey sig args1 kw1 = keyFn vrepr masterKey sig args2 kw2 := by
  unfold keyFn
  rw [keyArgs_canonical sig args1 kw1 l hdl hb1 hp1,
    keyArgs_canonical sig args2 kw2 l hdl hb2 hp2]

/-- C1 (witness): the specification's own example for `def g(a, b=2)` —
`g(1)` and `g(a=1)` both bind to `(1, 2)` and receive the same key. -/
theorem C1_keys_agree_witness :
    pyBind exSig2 [1] [] = some [1, 2] ∧
    pyBind exSig2 [] [("a", 1)] = some [1, 2] ∧
    keyFn intRepr none exSig2 [1] [] = keyFn intRepr none exSig2 [] [("a", 1)] :=
  ⟨by decide, by decide,
   C1_keys_agree intRepr none exSig2 [1] [] [] [("a", 1)] [1, 2] (by decide)
     (by decide) (by decide) (by decide) (by decide)⟩

/-- C2: whenever region-chain resolution succeeds, every option in the
merged result is the first-set one along call-site options, then the
call's region, then each ancestor in order — so a call-site option always
wins, a child region's option beats its parent's, a key already present
is never overwritten — and the last merged bundle is the `"default"`
region's. -/
theorem C2_region_precedence (regions : Regions) (fuel : Nat) (opts final : Opts)
    (chain : List Opts) (h : expandOpts regions fuel opts = .ok final chain) :
    (∀ k v, alookup k opts = some v → alookup k final = some v) ∧
    (∀ k, alookup k final = ofirst (alookup k opts) (chainLookup k chain)) ∧
    chain ≠ [] ∧ chain.getLast? = alookup "default" regions := by
  unfold expandOpts at h
  cases hr : regionNameOf (alookup "region" opts) "default" with
  | none => simp only [hr] at h; cases h
  | some r =>
      simp only [hr] at h
      obtain ⟨hlk, hne, hlast⟩ := expandLoop_ok regions fuel r opts final chain h
      refine ⟨fun k v hv => ?_, hlk, hne, hlast⟩
      rw [hlk k, hv]
      rfl

/-- C2 (witness): concrete configuration with `b` inheriting from `a`
inheriting from `default`, called with `region='b'`: the walk succeeds
and the first-set-wins/precedence properties hold of the result. -/
theorem C2_region_precedence_witness :
    expandOpts exRegions 5 exCallOpts = WalkRes.ok
      [("region", OVal.vstr "b"), ("z", OVal.vnum 9), ("parent", OVal.vstr "a"),
       ("y", OVal.vnum 4), ("x", OVal.vnum 2), ("store", OVal.vother 0)]
      [[("parent", OVal.vstr "a"), ("y", OVal.vnum 4)],
       [("x", OVal.vnum 2), ("y", OVal.vnum 3)],
       [("store", OVal.vother 0), ("x", OVal.vnum 1)]] ∧
    ((∀ k v, alookup k exCallOpts = some v →
        alookup k [("region", OVal.vstr "b"), ("z", OVal.vnum 9), ("parent", OVal.vstr "a"),
          ("y", OVal.vnum 4), ("x", OVal.vnum 2), ("store", OVal.vother 0)] = some v) ∧
     (∀ k, alookup k [("region", OVal.vstr "b"), ("z", OVal.vnum 9), ("parent", OVal.vstr "a"),
          ("y", OVal.vnum 4), ("x", OVal.vnum 2), ("store", OVal.vother 0)] =
        ofirst (alookup k exCallOpts)
          (chainLookup k [[("parent", OVal.vstr "a"), ("y", OVal.vnum 4)],
            [("x", OVal.vnum 2), ("y", OVal.vnum 3)],
            [("store", OVal.vother 0), ("x", OVal.vnum 1)]])) ∧
     ([[("parent", OVal.vstr "a"), ("y", OVal.vnum 4)],
       [("x", OVal.vnum 2), ("y", OVal.vnum 3)],
       [("store", OVal.vother 0), ("x", OVal.vnum 1)]] : List Opts) ≠ [] ∧
     ([[("parent", OVal.vstr "a"), ("y", OVal.vnum 4)],
       [("x", OVal.vnum 2), ("y", OVal.vnum 3)],
       [("store", OVal.vother 0), ("x", OVal.vnum 1)]] : List Opts).getLast? =
        alookup "default" exRegions) :=
  ⟨by decide, C2_region_precedence exRegions 5 exCallOpts _ _ (by decide)⟩

/-- C3 (counterexample): an entry whose stored `expiryTime` equals `now`
exactly is *not* treated as expired — `_has_expired` uses the strict
comparison `old_expiry < current_time`, so the claim's boundary behaviour
is false on the code. -/
theorem C3_counterexample :
    hasExpired (V := Int) (E := Int)
      { protocol := "1", creation := 0, expiry := some 5, etag := none, value := 7 }
      {} 5 = some false := by decide

/-- C3 (amended): with only the stored expiry in play (no etag, expiry or
max_age option), an entry is expired iff its stored `expiryTime` is
truthy (nonzero) and *strictly* before `now`; in particular at
`expiryTime = now` it is not expired. -/
theorem C3_expiry_strict {V E : Type} [DecidableEq E] (e : Entry V E) (o : EffOpts V E)
    (now x : ℚ) (hp : e.protocol = CURRENT_PROTOCOL_VERSION) (hx : e.expiry = some x)
    (hetag : o.etag = none) (hexp : o.expiry = none) (hma : o.max_age = none) :
    (x = now → hasExpired e o now = some false) ∧
    (hasExpired e o now = some true ↔ x ≠ 0 ∧ x < now) := by
  unfold hasExpired
  rw [if_pos hp, hx, hetag, hexp, hma]
  constructor
  · intro hxe
    subst hxe
    simp
  · constructor
    · intro h
      simpa using h
    · intro h
      simp [h.1, h.2]

/-- C3 (witness): concrete instance of the amended claim at the
`expiryTime = now` boundary. -/
theorem C3_expiry_strict_witness :
    ((5 : ℚ) = 5 → hasExpired (V := Int) (E := Int)
      { protocol := "1", creation := 0, expiry := some 5, etag := none, value := 3 }
      {} 5 = some false) ∧
    (hasExpired (V := Int) (E := Int)
      { protocol := "1", creation := 0, expiry := some 5, etag := none, value := 3 }
      {} 5 = some true ↔ (5 : ℚ) ≠ 0 ∧ (5 : ℚ) < 5) :=
  C3_expiry_strict (V := Int) (E := Int)
    { protocol := "1", creation := 0, expiry := some 5, etag := none, value := 3 }
    {} 5 5 rfl rfl rfl rfl rfl

/-- C8: on a cyclic region configuration (`a`'s parent is `b`, `b`'s
parent is `a`) the source's `while region != 'default'` loop never
terminates — for every fuel bound the walk is still running — instead of
reporting a configuration error as the claim requires. -/
theorem C8_cycle_never_terminates :
    ∀ fuel : Nat,
      expandOpts cycRegions fuel [("region", OVal.vstr "a")] = WalkRes.outOfFuel := by
  intro fuel
  exact (cyc_walk_diverges fuel).1 [("region", OVal.vstr "a")]

/-- C4: if the computation raises during `get`'s recomputation (the entry
was missing or expired and a generating function was supplied), the
exception propagates unchanged to the caller, nothing is written to the
store, the event trace ends `... callFunc, release` when a lock was
constructed and acquired, and `release` occurs iff a lock constructor
existed (call-site or store) and acquisition succeeded. -/
theorem C4_failure_releases_lock {V E Err : Type} [DecidableEq E] (store : StoreModel V E)
    (rawKey : KeyV) (err : Err) (args : List V) (kwargs : List (String × V))
    (o : EffOpts V E) (tC tW : ℚ) (acqOk : Bool) (ks : String)
    (hk : resolveKey o.nspace rawKey = KeyV.kstr ks)
    (hmiss : alookup (KeyV.kstr ks) store.data = none ∨
      ∃ e, alookup (KeyV.kstr ks) store.data = some e ∧
        hasExpired e { o with etag := (effectiveEtag o args kwargs).1 } tC = some true) :
    (getM store rawKey (some (Except.error err)) args kwargs o tC tW acqOk).result =
      Except.error (GetErr.funcRaised err) ∧
    (getM store rawKey (some (Except.error err)) args kwargs o tC tW acqOk).store =
      store.data ∧
    (getM store rawKey (some (Except.error err)) args kwargs o tC tW acqOk).trace =
      (if (effectiveEtag o args kwargs).2 then [Event.etagCall] else []) ++
      [Event.storeGet] ++
      (match ofirst o.lock store.lockCtor with
       | none => []
       | some c => [Event.lockConstruct c ks,
                    Event.acquire ((ofirst o.timeout (some DEFAULT_TIMEOUT)).getD 0) acqOk]) ++
      [Event.callFunc] ++
      (if (ofirst o.lock store.lockCtor).isSome && acqOk then [Event.release] else []) ∧
    (Event.release ∈ (getM store rawKey (some (Except.error err)) args kwargs o tC tW acqOk).trace ↔
      ((ofirst o.lock store.lockCtor).isSome ∧ acqOk = true)) ∧
    Event.storeWrite ∉ (getM store rawKey (some (Except.error err)) args kwargs o tC tW acqOk).trace := by
  have hk2 : resolveKey ({ o with etag := (effectiveEtag o args kwargs).1 } : EffOpts V E).nspace
      rawKey = KeyV.kstr ks := hk
  have hafter := getAfterEtag_recompute store rawKey (Except.error err)
    { o with etag := (effectiveEtag o args kwargs).1 } tC tW acqOk ks hk2 hmiss
  have hres : getM store rawKey (some (Except.error err)) args kwargs o tC tW acqOk =
      ⟨Except.error (GetErr.funcRaised err), store.data,
       (if (effectiveEtag o args kwargs).2 then [Event.etagCall] else []) ++
       [Event.storeGet] ++
       (match ofirst o.lock store.lockCtor with
        | none => []
        | some c => [Event.lockConstruct c ks,
                     Event.acquire ((ofirst o.timeout (some DEFAULT_TIMEOUT)).getD 0) acqOk]) ++
       [Event.callFunc] ++
       (if (ofirst o.lock store.lockCtor).isSome && acqOk then [Event.release] else [])⟩ := by
    simp only [getM]
    rw [hafter, recompute_error_eq]
    simp [List.append_assoc]
  rw [hres]
  refine ⟨rfl, rfl, rfl, ?_, ?_⟩ <;>
    cases hp2 : (effectiveEtag o args kwargs).2 <;>
    cases hc : ofirst o.lock store.lockCtor <;>
    cases acqOk <;>
    simp [hc]

/-- C4 (witness): concrete failing recomputation on a missing key with a
call-site lock: the error propagates, the store is untouched, and the
trace is acquire → compute → release. -/
theorem C4_failure_releases_lock_witness :
    (getM exStore (KeyV.kstr "j") (some (Except.error ())) ([] : List Int) []
        ({ lock := some 7 } : EffOpts Int Int) 0 1 true).result =
      Except.error (GetErr.funcRaised ()) ∧
    (getM exStore (KeyV.kstr "j") (some (Except.error ())) ([] : List Int) []
        ({ lock := some 7 } : EffOpts Int Int) 0 1 true).store = exStoreData ∧
    (getM exStore (KeyV.kstr "j") (some (Except.error ())) ([] : List Int) []
        ({ lock := some 7 } : EffOpts Int Int) 0 1 true).trace =
      [Event.storeGet, Event.lockConstruct 7 "j", Event.acquire 10 true,
       Event.callFunc, Event.release] ∧
    (Event.release ∈ (getM exStore (KeyV.kstr "j") (some (Except.error ())) ([] : List Int) []
        ({ lock := some 7 } : EffOpts Int Int) 0 1 true).trace ↔
      (true = true ∧ true = true)) ∧
    Event.storeWrite ∉ (getM exStore (KeyV.kstr "j") (some (Except.error ())) ([] : List Int) []
        ({ lock := some 7 } : EffOpts Int Int) 0 1 true).trace :=
  C4_failure_releases_lock exStore (KeyV.kstr "j") () [] [] { lock := some 7 } 0 1 true "j"
    rfl (Or.inl (by decide))

/-- C5: on every write of a freshly computed value, the stored entry is
`(protocolVersion, creationTime, expiryTime, etag, value)` whose
`expiryTime` is the minimum of the effective `expiry` option and
`creationTime + max_age`, an unset side being absent from the minimum
(only the set side is stored; neither set means no expiry). -/
theorem C5_write_combined_expiry {V E Err : Type} [DecidableEq E] (store : StoreModel V E)
    (rawKey : KeyV) (v : V) (args : List V) (kwargs : List (String × V))
    (o : EffOpts V E) (tC tW : ℚ) (acqOk : Bool) (ks : String)
    (hk : resolveKey o.nspace rawKey = KeyV.kstr ks)
    (hmiss : alookup (KeyV.kstr ks) store.data = none ∨
      ∃ e, alookup (KeyV.kstr ks) store.data = some e ∧
        hasExpired e { o with etag := (effectiveEtag o args kwargs).1 } tC = some true) :
    (getM store rawKey (some (Except.ok v : Except Err V)) args kwargs o tC tW acqOk).result =
      Except.ok (some v) ∧
    (getM store rawKey (some (Except.ok v : Except Err V)) args kwargs o tC tW acqOk).store =
      storeSet store.data (KeyV.kstr ks)
        ⟨CURRENT_PROTOCOL_VERSION, tW, specExpiryMin o.expiry o.max_age tW,
         (effectiveEtag o args kwargs).1, v⟩ := by
  have hk2 : resolveKey ({ o with etag := (effectiveEtag o args kwargs).1 } : EffOpts V E).nspace
      rawKey = KeyV.kstr ks := hk
  have hafter := getAfterEtag_recompute store rawKey (Except.ok v : Except Err V)
    { o with etag := (effectiveEtag o args kwargs).1 } tC tW acqOk ks hk2 hmiss
  constructor
  · simp only [getM]
    rw [hafter, recompute_ok_eq]
  · simp only [getM]
    rw [hafter, recompute_ok_eq]

/-- C5 (witness): a miss with `expiry=50` and no `max_age` stores the
entry `("1", 2, 50, none, 5)` under the requested key. -/
theorem C5_write_combined_expiry_witness :
    (getM exStore (KeyV.kstr "w") (some (Except.ok 5 : Except Unit Int)) ([] : List Int) []
        ({ expiry := some 50 } : EffOpts Int Int) 0 2 true).result =
      Except.ok (some 5) ∧
    (getM exStore (KeyV.kstr "w") (some (Except.ok 5 : Except Unit Int)) ([] : List Int) []
        ({ expiry := some 50 } : EffOpts Int Int) 0 2 true).store =
      [(KeyV.kstr "k", ⟨"1", 0, none, none, 42⟩),
       (KeyV.kstr "w", ⟨"1", 2, some 50, none, 5⟩)] :=
  C5_write_combined_expiry exStore (KeyV.kstr "w") 5 [] []
    { expiry := some 50 } 0 2 true "w" rfl (Or.inl (by decide))

/-- C9 (counterexample): `Memoizer.delete` called with a non-string key
and no namespace completes normally (the source's only non-string key
check lives in `get`), refuting the claim that *every* facade operation
reports a type error for a non-string resolved key. -/
theorem C9_counterexample :
    (deleteM exStore (KeyV.kint 5) none :
        Except (GetErr Unit) (List (KeyV × Entry Int Int))) = Except.ok exStoreData ∧
    (deleteM exStore (KeyV.kint 5) none :
        Except (GetErr Unit) (List (KeyV × Entry Int Int))) ≠
      Except.error GetErr.typeError :=
  ⟨rfl, fun h => Except.noConfusion h⟩

/-- C9 (amended): `get` alone performs the check — a non-string resolved
key makes `get` raise the `TypeError` of core.py line 105 before touching
the store; the other operations pass the resolved key to the store with
no type check. -/
theorem C9_get_checks_key {V E Err : Type} [DecidableEq E] (store : StoreModel V E)
    (rawKey : KeyV) (func : Option (Except Err V)) (args : List V)
    (kwargs : List (String × V)) (o : EffOpts V E) (tC tW : ℚ) (acqOk : Bool) (n : Int)
    (hk : resolveKey o.nspace rawKey = KeyV.kint n) :
    (getM store rawKey func args kwargs o tC tW acqOk).result =
      Except.error GetErr.typeError ∧
    (getM store rawKey func args kwargs o tC tW acqOk).store = store.data := by
  have hk2 : resolveKey ({ o with etag := (effectiveEtag o args kwargs).1 } : EffOpts V E).nspace
      rawKey = KeyV.kint n := hk
  simp only [getM, getAfterEtag]
  rw [hk2]
  exact ⟨rfl, rfl⟩

/-- C9 (witness): `get` on the integer key 5 with no namespace reports
the type error and leaves the store unchanged. -/
theorem C9_get_checks_key_witness :
    (getM exStore (KeyV.kint 5) (none : Option (Except Unit Int)) ([] : List Int) []
        ({} : EffOpts Int Int) 0 0 true).result = Except.error GetErr.typeError ∧
    (getM exStore (KeyV.kint 5) (none : Option (Except Unit Int)) ([] : List Int) []
        ({} : EffOpts Int Int) 0 0 true).store = exStoreData :=
  C9_get_checks_key exStore (KeyV.kint 5) (none : Option (Except Unit Int)) [] [] {}
    0 0 true 5 rfl

/-- C6: `expire_at` on an existing entry rewrites only the expiry field —
the updated entry keeps the protocol, creation, etag and value, and every
other key of the store is untouched; on a missing key it raises
`KeyError(key)` and performs no write (the model returns no store on the
error path, so the store is unchanged). -/
theorem C6_expire_at_frame {V E : Type} (store : StoreModel V E) (rawKey : KeyV)
    (t : ℚ) (ns : Option String) :
    (∀ e, alookup (resolveKey ns rawKey) store.data = some e →
      expireAtM store rawKey t ns = Except.ok
        (storeSet store.data (resolveKey ns rawKey)
          ⟨e.protocol, e.creation, some t, e.etag, e.value⟩) ∧
      alookup (resolveKey ns rawKey)
          (storeSet store.data (resolveKey ns rawKey)
            ⟨e.protocol, e.creation, some t, e.etag, e.value⟩) =
        some ⟨e.protocol, e.creation, some t, e.etag, e.value⟩ ∧
      (∀ k', k' ≠ resolveKey ns rawKey →
        alookup k' (storeSet store.data (resolveKey ns rawKey)
          ⟨e.protocol, e.creation, some t, e.etag, e.value⟩) = alookup k' store.data)) ∧
    (alookup (resolveKey ns rawKey) store.data = none →
      expireAtM store rawKey t ns = Except.error (resolveKey ns rawKey)) := by
  constructor
  · intro e he
    refine ⟨?_, alookup_storeSet_self _ _ _,
      fun k' hk' => alookup_storeSet_other _ _ _ _ hk'⟩
    simp only [expireAtM, he]
  · intro hnone
    simp only [expireAtM, hnone]

/-- C6 (witness): setting the expiry of the existing key `"k"` to 9
rewrites just that field; `expire_at` on a missing key errors with the
key. -/
theorem C6_expire_at_frame_witness :
    expireAtM exStore (KeyV.kstr "k") 9 none =
      Except.ok [(KeyV.kstr "k", ⟨"1", 0, some 9, none, 42⟩)] ∧
    expireAtM exStore (KeyV.kstr "missing") 9 none =
      Except.error (KeyV.kstr "missing") :=
  ⟨((C6_expire_at_frame exStore (KeyV.kstr "k") 9 none).1
      ⟨"1", 0, none, none, 42⟩ (by decide)).1,
   (C6_expire_at_frame exStore (KeyV.kstr "missing") 9 none).2 (by decide)⟩

/-- C7: with no native store `ttl`, `ttl` returns none for a missing entry
or an entry without a stored expiry; otherwise it returns the stored
expiry minus `now` when that is positive, and collapses a zero-or-negative
remainder to the same `none` signal as "no expiry set". -/
theorem C7_ttl_floor {V E : Type} (store : StoreModel V E) (rawKey : KeyV)
    (ns : Option String) (now : ℚ) (hn : store.nativeTtl = none) :
    (alookup (resolveKey ns rawKey) store.data = none →
      ttlM store rawKey ns now = none) ∧
    (∀ e, alookup (resolveKey ns rawKey) store.data = some e → e.expiry = none →
      ttlM store rawKey ns now = none) ∧
    (∀ e x, alookup (resolveKey ns rawKey) store.data = some e → e.expiry = some x →
      (x ≤ now → ttlM store rawKey ns now = none) ∧
      (now < x → ttlM store rawKey ns now = some (x - now))) := by
  refine ⟨fun h => ?_, fun e he hx => ?_,
    fun e x he hx => ⟨fun hle => ?_, fun hlt => ?_⟩⟩
  · simp only [ttlM, hn, h]
  · simp only [ttlM, hn, he, hx]
  · simp only [ttlM, hn, he, hx]
    rw [max_eq_left (sub_nonpos.mpr hle), if_pos rfl]
  · simp only [ttlM, hn, he, hx]
    rw [max_eq_right (le_of_lt (sub_pos.mpr hlt)),
      if_neg (sub_ne_zero_of_ne (ne_of_gt hlt))]

/-- C7 (witness): an entry with stored expiry 5 has ttl `5 - 3` at time 3,
`none` at time 5 (zero remainder collapsed), and a missing key has ttl
`none`. -/
theorem C7_ttl_floor_witness :
    ttlM exStoreTtl (KeyV.kstr "t") none 3 = some ((5 : ℚ) - 3) ∧
    ttlM exStoreTtl (KeyV.kstr "t") none 5 = none ∧
    ttlM exStoreTtl (KeyV.kstr "missing") none 3 = none :=
  ⟨((C7_ttl_floor exStoreTtl (KeyV.kstr "t") none 3 rfl).2.2
      ⟨"1", 0, some 5, none, 1⟩ 5 (by decide) rfl).2 (by decide),
   ((C7_ttl_floor exStoreTtl (KeyV.kstr "t") none 5 rfl).2.2
      ⟨"1", 0, some 5, none, 1⟩ 5 (by decide) rfl).1 (by decide),
   (C7_ttl_floor exStoreTtl (KeyV.kstr "missing") none 3 rfl).1 (by decide)⟩

/-- C10 (implicit): when the effective options carry an `etagger` and no
explicit `etag`, `get` invokes the etagger on the call's arguments before
the store lookup (the trace starts with `etagCall`), and from there the
run is identical to one whose `etag` option is preset to the etagger's
result — so that value drives the expiry comparison and, on a fresh
write, is persisted as the entry's etag. -/
theorem C10_dynamic_etag {V E Err : Type} [DecidableEq E] (store : StoreModel V E)
    (rawKey : KeyV) (func : Option (Except Err V)) (args : List V)
    (kwargs : List (String × V)) (o : EffOpts V E) (tC tW : ℚ) (acqOk : Bool)
    (g : List V → List (String × V) → E)
    (he : o.etag = none) (hg : o.etagger = some g) :
    (getM store rawKey func args kwargs o tC tW acqOk).result =
      (getM store rawKey func args kwargs { o with etag := some (g args kwargs) }
        tC tW acqOk).result ∧
    (getM store rawKey func args kwargs o tC tW acqOk).store =
      (getM store rawKey func args kwargs { o with etag := some (g args kwargs) }
        tC tW acqOk).store ∧
    (getM store rawKey func args kwargs o tC tW acqOk).trace =
      Event.etagCall ::
        (getM store rawKey func args kwargs { o with etag := some (g args kwargs) }
          tC tW acqOk).trace ∧
    (getM store rawKey func args kwargs o tC tW acqOk).trace.head? =
      some Event.etagCall ∧
    (∀ (v : V) (ks : String), func = some (Except.ok v) →
      resolveKey o.nspace rawKey = KeyV.kstr ks →
      (alookup (KeyV.kstr ks) store.data = none ∨
        ∃ e, alookup (KeyV.kstr ks) store.data = some e ∧
          hasExpired e { o with etag := some (g args kwargs) } tC = some true) →
      alookup (KeyV.kstr ks) (getM store rawKey func args kwargs o tC tW acqOk).store =
        some ⟨CURRENT_PROTOCOL_VERSION, tW, specExpiryMin o.expiry o.max_age tW,
              some (g args kwargs), v⟩) := by
  have heff : effectiveEtag o args kwargs = (some (g args kwargs), true) := by
    unfold effectiveEtag
    rw [he, hg]
  have h1 : getM store rawKey func args kwargs o tC tW acqOk =
      ⟨(getAfterEtag store rawKey func { o with etag := some (g args kwargs) }
          tC tW acqOk).result,
       (getAfterEtag store rawKey func { o with etag := some (g args kwargs) }
          tC tW acqOk).store,
       Event.etagCall :: (getAfterEtag store rawKey func
          { o with etag := some (g args kwargs) } tC tW acqOk).trace⟩ := by
    simp only [getM, heff]
    rfl
  have h2 : getM store rawKey func args kwargs { o with etag := some (g args kwargs) }
        tC tW acqOk =
      ⟨(getAfterEtag store rawKey func { o with etag := some (g args kwargs) }
          tC tW acqOk).result,
       (getAfterEtag store rawKey func { o with etag := some (g args kwargs) }
          tC tW acqOk).store,
       (getAfterEtag store rawKey func
          { o with etag := some (g args kwargs) } tC tW acqOk).trace⟩ := by
    simp only [getM]
    rfl
  refine ⟨by rw [h1, h2], by rw [h1, h2], by rw [h1, h2], by rw [h1]; rfl, ?_⟩
  intro v ks hv hkk hmiss
  subst hv
  have hk2 : resolveKey ({ o with etag := some (g args kwargs) } : EffOpts V E).nspace
      rawKey = KeyV.kstr ks := hkk
  have hafter := getAfterEtag_recompute store rawKey (Except.ok v : Except Err V)
    { o with etag := some (g args kwargs) } tC tW acqOk ks hk2 hmiss
  rw [h1]
  show alookup (KeyV.kstr ks) (getAfterEtag store rawKey (some (Except.ok v))
      { o with etag := some (g args kwargs) } tC tW acqOk).store = _
  rw [hafter, recompute_ok_eq]
  show alookup (KeyV.kstr ks) (storeSet store.data (KeyV.kstr ks) _) = _
  rw [alookup_storeSet_self]

/-- C10 (witness): a concrete etagger returning 99 on a stored entry with
etag `none`: the trace starts with the etag call, the mismatch forces a
recomputation, and the fresh entry is written with etag 99. -/
theorem C10_dynamic_etag_witness :
    (getM exStore (KeyV.kstr "k") (some (Except.ok 7 : Except Unit Int)) [] []
        ({ etagger := some (fun _ _ => (99 : Int)) } : EffOpts Int Int) 1 2 true).result =
      Except.ok (some 7) ∧
    (getM exStore (KeyV.kstr "k") (some (Except.ok 7 : Except Unit Int)) [] []
        ({ etagger := some (fun _ _ => (99 : Int)) } : EffOpts Int Int) 1 2 true).trace =
      [Event.etagCall, Event.storeGet, Event.callFunc, Event.storeWrite] ∧
    alookup (KeyV.kstr "k")
        (getM exStore (KeyV.kstr "k") (some (Except.ok 7 : Except Unit Int)) [] []
          ({ etagger := some (fun _ _ => (99 : Int)) } : EffOpts Int Int) 1 2 true).store =
      some ⟨"1", 2, none, some 99, 7⟩ := by
  have H := C10_dynamic_etag exStore (KeyV.kstr "k")
    (some (Except.ok 7 : Except Unit Int)) [] []
    { etagger := some (fun _ _ => (99 : Int)) } 1 2 true
    (fun _ _ => (99 : Int)) rfl rfl
  exact ⟨H.1.trans rfl, (H.2.2.1).trans rfl,
    H.2.2.2.2 7 "k" rfl rfl (Or.inr ⟨⟨"1", 0, none, none, 42⟩, by decide, by decide⟩)⟩
